import Mathlib

/-!
# The demo callbacks of `.orpheus/demos` and the engine contracts they probe

Three developments.

* `DemoPollRemove`: a shallow embedding of `demo_poll_remove.c`: the global
  watch list (`watched`, `watch_what`, `nsockets`), the timer value
  `timeout_ms_global`, `socket_callback`, `timer_callback` and the `timeval`
  that `main` computes before each `select`.
* `ConnectionPool` and `SocketRegistrar`: the connection pool and the socket
  registrar of the transfer engine.  The engine is called by both demo programs
  but is not among the sources, so both are written after the specification.

C `int`/`long` values are `Int`.  The only arithmetic the callbacks perform on
them is `nsockets++`, `nsockets--`, `nsockets - 1` and `i++`, each of which
stays inside `[-1, 16]` on every state the callbacks can reach, and the
division of a `long` by 1000 with a remainder below 1000 scaled by 1000, so no
wrap-around is involved.

An array access `a[i]` is `rd`/`wr`, which fail (`none`) outside the array, so
a callback that returns `some _` has stayed inside both arrays.
-/

set_option autoImplicit false

namespace DemoPollRemove

/-- `#define MAX_SOCKETS 16`. -/
def MAX_SOCKETS : Int := 16

/-- The file-scope variables of `demo_poll_remove.c`. -/
structure Globals where
  /-- `static curl_socket_t watched[MAX_SOCKETS]` -/
  watched : List Int
  /-- `static int watch_what[MAX_SOCKETS]` -/
  watch_what : List Int
  /-- `static int nsockets = 0` -/
  nsockets : Int
  /-- `static long timeout_ms_global = -1` -/
  timeout_ms_global : Int
deriving DecidableEq, Repr

/-- The state at program start: zero-initialised arrays, `nsockets = 0`,
`timeout_ms_global = -1`. -/
def initGlobals : Globals :=
  { watched := List.replicate 16 0
    watch_what := List.replicate 16 0
    nsockets := 0
    timeout_ms_global := -1 }

/-- Array read `a[i]`; `none` when `i` is outside the array. -/
def rd (a : List Int) (i : Int) : Option Int :=
  if 0 ≤ i then a[i.toNat]? else none

/-- Array write `a[i] = v`; `none` when `i` is outside the array. -/
def wr (a : List Int) (i : Int) (v : Int) : Option (List Int) :=
  if 0 ≤ i ∧ i.toNat < a.length then some (a.set i.toNat v) else none

/-- One `curl_multi_assign(multi, s, marker)` call: the handle, the socket and
the value `*marker` stored behind the pointer. -/
structure AssignCall where
  multi : Int
  sock : Int
  marker : Int
deriving DecidableEq, Repr

/-- What one `socket_callback` call leaves behind: the globals, the
`curl_multi_assign` calls it made (in order) and its return value. -/
structure CallResult where
  globals : Globals
  assigns : List AssignCall
  ret : Int
deriving DecidableEq, Repr

/-- The loop of the `CURL_POLL_REMOVE` branch,
`for(int i = 0; i < nsockets; i++) if(watched[i] == s) { ...; break; }`,
entered at index `i`.  The first argument bounds the number of iterations. -/
def removeLoop (s : Int) : Nat → Int → Globals → Option Globals
  | 0, _, _ => none
  | fuel + 1, i, g =>
    if i < g.nsockets then
      (rd g.watched i).bind fun w =>
        if w = s then
          (rd g.watched (g.nsockets - 1)).bind fun lastSock =>
          (wr g.watched i lastSock).bind fun watched1 =>
          (rd g.watch_what (g.nsockets - 1)).bind fun lastWhat =>
          (wr g.watch_what i lastWhat).bind fun what1 =>
            some { g with watched := watched1, watch_what := what1,
                          nsockets := g.nsockets - 1 }
        else removeLoop s fuel (i + 1) g
    else some g

/-- The loop of the add-or-update branch,
`for(int i = 0; i < nsockets; i++) if(watched[i] == s) { watch_what[i] = what; found = 1; break; }`,
entered at index `i` with `found = 0`; returns the globals and `found`. -/
def updateLoop (s what : Int) : Nat → Int → Globals → Option (Globals × Int)
  | 0, _, _ => none
  | fuel + 1, i, g =>
    if i < g.nsockets then
      (rd g.watched i).bind fun w =>
        if w = s then
          (wr g.watch_what i what).bind fun what1 =>
            some ({ g with watch_what := what1 }, 1)
        else updateLoop s what fuel (i + 1) g
    else some (g, 0)

/-- The function `socket_callback(easy, s, what, clientp, socketp)`.  `easy` and `socketp`
only feed `printf` and are left out.  `CURL_POLL_REMOVE` comes from
`<curl/curl.h>`, which is not part of the repository, and is a parameter.
`malloc` is taken to succeed. -/
def socket_callback (CURL_POLL_REMOVE : Int) (g : Globals) (s what clientp : Int) :
    Option CallResult :=
  if what = CURL_POLL_REMOVE then
    (removeLoop s (g.nsockets.toNat + 1) 0 g).bind fun g1 =>
      some { globals := g1, assigns := [], ret := 0 }
  else
    (updateLoop s what (g.nsockets.toNat + 1) 0 g).bind fun (g1, found) =>
      if found = 0 ∧ g1.nsockets < MAX_SOCKETS then
        (wr g1.watched g1.nsockets s).bind fun watched1 =>
        (wr g1.watch_what g1.nsockets what).bind fun what1 =>
          some { globals := { g1 with watched := watched1, watch_what := what1,
                                      nsockets := g1.nsockets + 1 }
                 assigns := [{ multi := clientp, sock := s, marker := 42 }]
                 ret := 0 }
      else some { globals := g1, assigns := [], ret := 0 }

/-- One notification delivered to `socket_callback`. -/
structure Call where
  s : Int
  what : Int
  clientp : Int
deriving DecidableEq, Repr

/-- A finite sequence of `socket_callback` calls, started in `g`. -/
def run (CURL_POLL_REMOVE : Int) : List Call → Globals → Option Globals
  | [], g => some g
  | c :: cs, g =>
    (socket_callback CURL_POLL_REMOVE g c.s c.what c.clientp).bind fun r =>
      run CURL_POLL_REMOVE cs r.globals

/-- The function `timer_callback(multi, timeout_ms, clientp)`: new globals and return value. -/
def timer_callback (g : Globals) (timeout_ms : Int) : Globals × Int :=
  ({ g with timeout_ms_global := timeout_ms }, 0)

/-- A finite sequence of `timer_callback` requests, started in `g`. -/
def runTimer (g : Globals) (requests : List Int) : Globals :=
  requests.foldl (fun h t => (timer_callback h t).1) g

/-- The type `struct timeval`. -/
structure Timeval where
  tv_sec : Int
  tv_usec : Int
deriving DecidableEq, Repr

/-- The `timeval` that `main` fills in before `select`; `/` and `%` are C's
truncating division and remainder. -/
def select_timeval (timeout_ms_global : Int) : Timeval :=
  if timeout_ms_global ≥ 0 then
    { tv_sec := Int.tdiv timeout_ms_global 1000
      tv_usec := Int.tmod timeout_ms_global 1000 * 1000 }
  else
    { tv_sec := 1, tv_usec := 0 }

/-- The last argument of `select(maxfd + 1, &fdread, &fdwrite, &fdexcep, &tv)` in
`main`: `none` stands for a null pointer (wait without a time limit),
`some tv` for a pointer to `tv`.  `main` always passes `&tv`. -/
def select_timeout_arg (g : Globals) : Option Timeval :=
  some (select_timeval g.timeout_ms_global)

/-- The indices `0, 1, ..., nsockets - 1` of the watch list. -/
def slots (g : Globals) : List Int :=
  (List.range g.nsockets.toNat).map fun (k : Nat) => (k : Int)

/-- Socket `s` occurs in `watched[0..nsockets)`. -/
def Watched (g : Globals) (s : Int) : Prop :=
  ∃ i ∈ slots g, rd g.watched i = some s

/-- Socket `s` occurs in `watched[0..nsockets)` at an index whose `watch_what`
entry is `w`. -/
def Interest (g : Globals) (s w : Int) : Prop :=
  ∃ i ∈ slots g, rd g.watched i = some s ∧ rd g.watch_what i = some w

/-- The entries `watched[0..nsockets)` are pairwise distinct. -/
def Distinct (g : Globals) : Prop :=
  ∀ i ∈ slots g, ∀ j ∈ slots g, i ≠ j → rd g.watched i ≠ rd g.watched j

instance (g : Globals) (s : Int) : Decidable (Watched g s) := by
  unfold Watched; infer_instance

instance (g : Globals) (s w : Int) : Decidable (Interest g s w) := by
  unfold Interest; infer_instance

instance (g : Globals) : Decidable (Distinct g) := by
  unfold Distinct; infer_instance

/-- The invariant of the watch list: both arrays have `MAX_SOCKETS` cells,
`0 ≤ nsockets ≤ MAX_SOCKETS`, and `watched[0..nsockets)` has no duplicates. -/
structure Inv (g : Globals) : Prop where
  len_watched : g.watched.length = 16
  len_what : g.watch_what.length = 16
  nonneg : 0 ≤ g.nsockets
  le_max : g.nsockets ≤ MAX_SOCKETS
  distinct : Distinct g

/-! ### States used to instantiate the theorems -/

/-- Two `CURL_POLL_OUT`/`CURL_POLL_IN` notifications, for sockets 5 and 7. -/
def twoCalls : List Call := [⟨5, 2, 0⟩, ⟨7, 1, 0⟩]

/-- The globals after `twoCalls`. -/
def twoState : Globals :=
  { watched := [5, 7, 0, 0, 0, 0, 0, 0, 0, 0, 0, 0, 0, 0, 0, 0]
    watch_what := [2, 1, 0, 0, 0, 0, 0, 0, 0, 0, 0, 0, 0, 0, 0, 0]
    nsockets := 2
    timeout_ms_global := -1 }

/-- Sixteen notifications, for the sockets 1 to 16. -/
def fullCalls : List Call :=
  (List.range 16).map fun (k : Nat) => ⟨(k : Int) + 1, 1, 0⟩

/-- The globals after `fullCalls`: the watch list is full. -/
def fullState : Globals :=
  { watched := [1, 2, 3, 4, 5, 6, 7, 8, 9, 10, 11, 12, 13, 14, 15, 16]
    watch_what := [1, 1, 1, 1, 1, 1, 1, 1, 1, 1, 1, 1, 1, 1, 1, 1]
    nsockets := 16
    timeout_ms_global := -1 }

end DemoPollRemove

namespace ConnectionPool

/-- Modelled from the spec: the identity key (host, port, scheme) of §3, by
which transfers are matched to reusable connections; the engine that owns it
is not among the sources. -/
structure IdentityKey where
  host : String
  port : Nat
  scheme : String
deriving DecidableEq, Repr

/-- Modelled from the spec: the connection states of §3. -/
inductive ConnState where
  | CONNECTING
  | ESTABLISHED
  | IDLE
  | CLOSING
  | CLOSED
deriving DecidableEq, Repr

/-- Modelled from the spec: the Connection of §3: identity key, socket handle,
the owned close-callback reference captured when the connection is
established, a reuse counter and a state.  A callback reference is `none` when
the creating transfer set no callback, else `some` identifier. -/
structure Connection where
  key : IdentityKey
  sock : Int
  closeCb : Option Nat
  reuse : Nat
  state : ConnState
deriving DecidableEq, Repr

/-- Modelled from the spec: the Transfer of §3, reduced to what the pool reads:
the identity key it asks for and its own optionally-set close-callback value. -/
structure Transfer where
  key : IdentityKey
  closeCb : Option Nat
deriving DecidableEq, Repr

/-- Modelled from the spec: the Connection Pool of §4.1: the connections it
owns (a ConnectionRef is an index into them) and, in order, the close-callback
invocations made so far, each with the callback reference and the socket
handle it was given. -/
structure Pool where
  conns : List Connection
  fired : List (Option Nat × Int)
deriving DecidableEq, Repr

/-- Modelled from the spec: the pool of a freshly created engine. -/
def emptyPool : Pool := { conns := [], fired := [] }

/-- Modelled from the spec: the scan of `acquire` (§4.1) over the connections:
the first IDLE connection matching the key becomes ESTABLISHED (reused), its
close-callback reference untouched; `none` when there is none. -/
def reuseIdle (key : IdentityKey) : List Connection → Option (List Connection × Nat)
  | [] => none
  | c :: cs =>
    if c.state = ConnState.IDLE ∧ c.key = key then
      some ({ c with state := ConnState.ESTABLISHED, reuse := c.reuse + 1 } :: cs, 0)
    else
      (reuseIdle key cs).map fun (cs1, i) => (c :: cs1, i + 1)

/-- Modelled from the spec: `acquire(identityKey, requestedCloseCallback)` of
§4.1.  `connect` is the socket handle the connect primitive returns should a
new connection be needed; the new connection binds `requestedCloseCallback`
at that moment. -/
def acquire (p : Pool) (key : IdentityKey) (requestedCloseCallback : Option Nat)
    (connect : Int) : Pool × Nat :=
  match reuseIdle key p.conns with
  | some (cs, ref) => ({ p with conns := cs }, ref)
  | none =>
    ({ p with conns := p.conns ++
        [{ key := key, sock := connect, closeCb := requestedCloseCallback,
           reuse := 0, state := ConnState.ESTABLISHED }] },
      p.conns.length)

/-- Modelled from the spec: closing one connection (§4.1): CLOSING, the bound
close-callback reference invoked once with the connection's socket handle,
then CLOSED.  A connection already CLOSING or CLOSED is left alone. -/
def closeConn (c : Connection) : Connection × List (Option Nat × Int) :=
  if c.state = ConnState.CLOSED ∨ c.state = ConnState.CLOSING then (c, [])
  else ({ c with state := ConnState.CLOSED }, [(c.closeCb, c.sock)])

/-- Modelled from the spec: `release(ConnectionRef, reusable)` of §4.1:
ESTABLISHED to IDLE when reusable (a no-op on any other state), closing the
connection otherwise. -/
def release (p : Pool) (ref : Nat) (reusable : Bool) : Pool :=
  match p.conns[ref]? with
  | none => p
  | some c =>
    if reusable then
      if c.state = ConnState.ESTABLISHED then
        { p with conns := p.conns.set ref { c with state := ConnState.IDLE } }
      else p
    else
      { conns := p.conns.set ref (closeConn c).1, fired := p.fired ++ (closeConn c).2 }

/-- Modelled from the spec: pool teardown (§4.1): every connection is closed. -/
def teardown (p : Pool) : Pool :=
  { conns := p.conns.map fun c => (closeConn c).1
    fired := p.fired ++ (p.conns.map fun c => (closeConn c).2).flatten }

/-- Modelled from the spec: one transfer run to completion (§4.4): the
scheduler acquires a connection at submission and releases it at completion. -/
def runTransfer (p : Pool) (t : Transfer) (connect : Int) (reusable : Bool) : Pool :=
  release (acquire p t.key t.closeCb connect).1 (acquire p t.key t.closeCb connect).2 reusable

/-- Modelled from the spec: a first transfer with callback `cb1`, whose connect
yields `sock`, then the transfers `later` (callback value and the handle a
connect would yield), all with key `key`, each completed and released as
reusable before the next is submitted. -/
def session (key : IdentityKey) (cb1 : Option Nat) (sock : Int)
    (later : List (Option Nat × Int)) : Pool :=
  later.foldl (fun p t => runTransfer p { key := key, closeCb := t.1 } t.2 true)
    (runTransfer emptyPool { key := key, closeCb := cb1 } sock true)

/-- The identity key of the demo's URL, `http://localhost:8888/`. -/
def demoKey : IdentityKey := { host := "localhost", port := 8888, scheme := "http" }

end ConnectionPool

namespace SocketRegistrar

/-- Modelled from the spec: the interest mask of a SocketRegistration (§3). -/
inductive Mask where
  | IN
  | OUT
  | INOUT
deriving DecidableEq, Repr

/-- Modelled from the spec: the three transitions of §4.2. -/
inductive Action where
  | ADD
  | MODIFY
  | REMOVE
deriving DecidableEq, Repr

/-- Modelled from the spec: the only error of the registrar contract (§4.2, §7). -/
inductive RegError where
  | InvalidHandle
deriving DecidableEq, Repr

/-- Modelled from the spec: what the Registrar keeps for a REGISTERED fd (§3):
the current interest mask and the application-data slot, `none` when empty. -/
structure SocketRegistration where
  mask : Mask
  data : Option Nat
deriving DecidableEq, Repr

/-- Modelled from the spec: the Registrar's mapping from fd to
SocketRegistration (§3); an fd mapped to `none` is UNREGISTERED.  The engine
that implements it is not among the sources. -/
structure Registrar where
  regs : Int → Option SocketRegistration

/-- Modelled from the spec: the payload of one `notify` as the caller's
callback receives it: fd, transition, interest mask and the application data
reported for the fd. -/
structure Notification where
  fd : Int
  action : Action
  mask : Mask
  data : Option Nat
deriving DecidableEq, Repr

/-- Modelled from the spec: a Registrar with every fd UNREGISTERED. -/
def emptyRegistrar : Registrar := { regs := fun _ => none }

/-- Modelled from the spec: the mapping with the entry of `fd` replaced. -/
def setReg (r : Registrar) (fd : Int) (e : Option SocketRegistration) : Registrar :=
  { regs := fun x => if x = fd then e else r.regs x }

/-- Modelled from the spec: `notify(fd, action, interestMask)` of §4.2, with the
state machine UNREGISTERED → (ADD) → REGISTERED → (MODIFY)* → (REMOVE) →
UNREGISTERED.  ADD registers the fd with an empty slot; MODIFY changes the mask
and keeps the slot; REMOVE clears the slot and unregisters the fd before the
notification is delivered, whose payload still reports the last value.  A
transition the state machine does not have yields `none`. -/
def notify (r : Registrar) (fd : Int) (action : Action) (mask : Mask) :
    Option (Registrar × Notification) :=
  match action, r.regs fd with
  | Action.ADD, none =>
    some (setReg r fd (some { mask := mask, data := none }),
      { fd := fd, action := Action.ADD, mask := mask, data := none })
  | Action.MODIFY, some e =>
    some (setReg r fd (some { e with mask := mask }),
      { fd := fd, action := Action.MODIFY, mask := mask, data := e.data })
  | Action.REMOVE, some e =>
    some (setReg r fd none,
      { fd := fd, action := Action.REMOVE, mask := mask, data := e.data })
  | _, _ => none

/-- Modelled from the spec: `assign(fd, data)` of §4.2; InvalidHandle on an
UNREGISTERED fd. -/
def assign (r : Registrar) (fd : Int) (d : Nat) : Except RegError Registrar :=
  match r.regs fd with
  | some e => Except.ok (setReg r fd (some { e with data := some d }))
  | none => Except.error RegError.InvalidHandle

/-- Modelled from the spec: `lookup(fd)` of §4.2; InvalidHandle on an
UNREGISTERED fd, else the content of the slot. -/
def lookup (r : Registrar) (fd : Int) : Except RegError (Option Nat) :=
  match r.regs fd with
  | some e => Except.ok e.data
  | none => Except.error RegError.InvalidHandle

/-- Modelled from the spec: one operation on the Registrar, by the engine
(`notify`) or by the caller (`assign`). -/
inductive Op where
  | notify (fd : Int) (action : Action) (mask : Mask)
  | assign (fd : Int) (d : Nat)
deriving DecidableEq, Repr

/-- Modelled from the spec: the Registrar after one operation; an operation
that fails leaves it as it was. -/
def step (r : Registrar) : Op → Registrar
  | Op.notify fd action mask =>
    match notify r fd action mask with
    | some (r1, _) => r1
    | none => r
  | Op.assign fd d =>
    match assign r fd d with
    | Except.ok r1 => r1
    | Except.error _ => r

/-- Modelled from the spec: the Registrar after a sequence of operations. -/
def exec (r : Registrar) (ops : List Op) : Registrar :=
  ops.foldl step r

/-- The operation is an `assign` to `fd`. -/
def Op.assignsTo (fd : Int) : Op → Bool
  | Op.assign fd1 _ => fd1 = fd
  | Op.notify _ _ _ => false

/-- The slot of `fd` holds nothing: the fd is UNREGISTERED or its slot is empty. -/
def Forgotten (r : Registrar) (fd : Int) : Prop :=
  (r.regs fd).bind (fun e => e.data) = none

instance (r : Registrar) (fd : Int) : Decidable (Forgotten r fd) := by
  unfold Forgotten; infer_instance

/-- Scenario 2 of the specification up to the REMOVE: fd 7 is added with mask
OUT, the caller assigns 42, the mask is modified to IN. -/
def scenario2 : Registrar :=
  exec emptyRegistrar
    [Op.notify 7 Action.ADD Mask.OUT, Op.assign 7 42, Op.notify 7 Action.MODIFY Mask.IN]

end SocketRegistrar

namespace DemoPollRemove

/-! ## Array reads and writes -/

theorem mem_slots {g : Globals} {i : Int} : i ∈ slots g ↔ 0 ≤ i ∧ i < g.nsockets := by
  unfold slots
  simp only [List.mem_map, List.mem_range]
  constructor
  · rintro ⟨k, hk, rfl⟩
    omega
  · rintro ⟨h0, h1⟩
    exact ⟨i.toNat, by omega, by omega⟩

theorem rd_some_of_lt {a : List Int} {i : Int} (h0 : 0 ≤ i) (h1 : i < a.length) :
    ∃ v, rd a i = some v := by
  have hlt : i.toNat < a.length := by omega
  exact ⟨a[i.toNat], by simp [rd, h0, List.getElem?_eq_getElem hlt]⟩

theorem wr_some_of_lt {a : List Int} {i : Int} (v : Int) (h0 : 0 ≤ i) (h1 : i < a.length) :
    ∃ b, wr a i v = some b := by
  have hlt : i.toNat < a.length := by omega
  exact ⟨a.set i.toNat v, by simp [wr, h0, hlt]⟩

theorem rd_in_bounds {a : List Int} {i v : Int} (h : rd a i = some v) :
    0 ≤ i ∧ i < a.length := by
  unfold rd at h
  split at h
  · rename_i h0
    have hlt : i.toNat < a.length := by
      by_contra hge
      rw [List.getElem?_eq_none (by omega)] at h
      cases h
    omega
  · cases h

theorem wr_in_bounds {a b : List Int} {i v : Int} (h : wr a i v = some b) :
    0 ≤ i ∧ i < a.length := by
  unfold wr at h
  split at h
  · rename_i hc
    omega
  · cases h

theorem wr_length {a b : List Int} {i v : Int} (h : wr a i v = some b) :
    b.length = a.length := by
  unfold wr at h
  split at h
  · cases h; simp
  · cases h

theorem rd_wr_same {a b : List Int} {i v : Int} (h : wr a i v = some b) :
    rd b i = some v := by
  unfold wr at h
  split at h
  · rename_i hc
    cases h
    simp [rd, hc.1, hc.2]
  · cases h

theorem rd_wr_other {a b : List Int} {i j v : Int} (h : wr a i v = some b) (hij : j ≠ i) :
    rd b j = rd a j := by
  unfold wr at h
  split at h
  · rename_i hc
    cases h
    unfold rd
    split
    · rename_i hj
      have hne : i.toNat ≠ j.toNat := by omega
      simp [List.getElem?_set, hne]
    · rfl
  · cases h

/-! ## The two search loops -/

theorem updateLoop_spec (s what : Int) (g : Globals)
    (hlw : g.watched.length = 16) (hlh : g.watch_what.length = 16)
    (hn : g.nsockets ≤ 16) :
    ∀ (fuel : Nat) (i : Int), 0 ≤ i → 0 < fuel → g.nsockets - i < fuel →
      (∀ j, 0 ≤ j → j < i → rd g.watched j ≠ some s) →
      (∃ k what1, i ≤ k ∧ k < g.nsockets ∧ rd g.watched k = some s ∧
          (∀ j, 0 ≤ j → j < k → rd g.watched j ≠ some s) ∧
          wr g.watch_what k what = some what1 ∧
          updateLoop s what fuel i g = some ({ g with watch_what := what1 }, 1)) ∨
      ((∀ j, 0 ≤ j → j < g.nsockets → rd g.watched j ≠ some s) ∧
          updateLoop s what fuel i g = some (g, 0)) := by
  intro fuel
  induction fuel with
  | zero =>
    intro i h0 hpos
    omega
  | succ fuel ih =>
    intro i h0 _ hf hpre
    by_cases hlt : i < g.nsockets
    · obtain ⟨w, hw⟩ := rd_some_of_lt (a := g.watched) h0 (by omega)
      by_cases hws : w = s
      · obtain ⟨what1, hwr⟩ := wr_some_of_lt (a := g.watch_what) what h0 (by omega)
        left
        refine ⟨i, what1, le_refl _, hlt, by rw [hw, hws], hpre, hwr, ?_⟩
        simp [updateLoop, hlt, hw, hws, hwr]
      · have hstep : updateLoop s what (fuel + 1) i g = updateLoop s what fuel (i + 1) g := by
          simp [updateLoop, hlt, hw, hws]
        have hpre1 : ∀ j, 0 ≤ j → j < i + 1 → rd g.watched j ≠ some s := by
          intro j hj0 hj1
          by_cases hji : j = i
          · subst hji
            rw [hw]
            intro h
            exact hws (Option.some.inj h)
          · exact hpre j hj0 (by omega)
        rcases ih (i + 1) (by omega) (by push_cast at hf; omega)
            (by push_cast at hf ⊢; omega) hpre1 with
          ⟨k, what1, hk0, hk1, hks, hkf, hkw, hres⟩ | ⟨hnone, hres⟩
        · left
          exact ⟨k, what1, by omega, hk1, hks, hkf, hkw, by rw [hstep, hres]⟩
        · right
          exact ⟨hnone, by rw [hstep, hres]⟩
    · right
      refine ⟨fun j hj0 hj1 => hpre j hj0 (by omega), ?_⟩
      simp [updateLoop, hlt]

theorem removeLoop_spec (s : Int) (g : Globals)
    (hlw : g.watched.length = 16) (hlh : g.watch_what.length = 16)
    (hn : g.nsockets ≤ 16) :
    ∀ (fuel : Nat) (i : Int), 0 ≤ i → 0 < fuel → g.nsockets - i < fuel →
      (∀ j, 0 ≤ j → j < i → rd g.watched j ≠ some s) →
      (∃ k lastSock lastWhat watched1 what1, i ≤ k ∧ k < g.nsockets ∧
          rd g.watched k = some s ∧
          (∀ j, 0 ≤ j → j < k → rd g.watched j ≠ some s) ∧
          rd g.watched (g.nsockets - 1) = some lastSock ∧
          wr g.watched k lastSock = some watched1 ∧
          rd g.watch_what (g.nsockets - 1) = some lastWhat ∧
          wr g.watch_what k lastWhat = some what1 ∧
          removeLoop s fuel i g =
            some { g with watched := watched1, watch_what := what1,
                          nsockets := g.nsockets - 1 }) ∨
      ((∀ j, 0 ≤ j → j < g.nsockets → rd g.watched j ≠ some s) ∧
          removeLoop s fuel i g = some g) := by
  intro fuel
  induction fuel with
  | zero =>
    intro i h0 hpos
    omega
  | succ fuel ih =>
    intro i h0 _ hf hpre
    by_cases hlt : i < g.nsockets
    · obtain ⟨w, hw⟩ := rd_some_of_lt (a := g.watched) h0 (by omega)
      by_cases hws : w = s
      · obtain ⟨lastSock, hls⟩ :=
          rd_some_of_lt (a := g.watched) (i := g.nsockets - 1) (by omega) (by omega)
        obtain ⟨lastWhat, hlh1⟩ :=
          rd_some_of_lt (a := g.watch_what) (i := g.nsockets - 1) (by omega) (by omega)
        obtain ⟨watched1, hw1⟩ := wr_some_of_lt (a := g.watched) lastSock h0 (by omega)
        obtain ⟨what1, hwr⟩ := wr_some_of_lt (a := g.watch_what) lastWhat h0 (by omega)
        left
        refine ⟨i, lastSock, lastWhat, watched1, what1, le_refl _, hlt, by rw [hw, hws],
          hpre, hls, hw1, hlh1, hwr, ?_⟩
        simp [removeLoop, hlt, hw, hws, hls, hw1, hlh1, hwr]
      · have hstep : removeLoop s (fuel + 1) i g = removeLoop s fuel (i + 1) g := by
          simp [removeLoop, hlt, hw, hws]
        have hpre1 : ∀ j, 0 ≤ j → j < i + 1 → rd g.watched j ≠ some s := by
          intro j hj0 hj1
          by_cases hji : j = i
          · subst hji
            rw [hw]
            intro h
            exact hws (Option.some.inj h)
          · exact hpre j hj0 (by omega)
        rcases ih (i + 1) (by omega) (by push_cast at hf; omega)
            (by push_cast at hf ⊢; omega) hpre1 with
          ⟨k, a, b, c, d, hk0, hk1, hks, hkf, h1, h2, h3, h4, hres⟩ | ⟨hnone, hres⟩
        · left
          exact ⟨k, a, b, c, d, by omega, hk1, hks, hkf, h1, h2, h3, h4, by rw [hstep, hres]⟩
        · right
          exact ⟨hnone, by rw [hstep, hres]⟩
    · right
      refine ⟨fun j hj0 hj1 => hpre j hj0 (by omega), ?_⟩
      simp [removeLoop, hlt]

/-! ## Index form of the watch-list predicates -/

theorem watched_iff {g : Globals} {s : Int} :
    Watched g s ↔ ∃ i, 0 ≤ i ∧ i < g.nsockets ∧ rd g.watched i = some s := by
  unfold Watched
  constructor
  · rintro ⟨i, hi, h⟩
    exact ⟨i, (mem_slots.1 hi).1, (mem_slots.1 hi).2, h⟩
  · rintro ⟨i, h0, h1, h⟩
    exact ⟨i, mem_slots.2 ⟨h0, h1⟩, h⟩

theorem not_watched_iff {g : Globals} {s : Int} :
    ¬ Watched g s ↔ ∀ i, 0 ≤ i → i < g.nsockets → rd g.watched i ≠ some s := by
  rw [watched_iff]
  constructor
  · intro h i h0 h1 hs
    exact h ⟨i, h0, h1, hs⟩
  · rintro h ⟨i, h0, h1, hs⟩
    exact h i h0 h1 hs

theorem interest_iff {g : Globals} {s w : Int} :
    Interest g s w ↔
      ∃ i, 0 ≤ i ∧ i < g.nsockets ∧ rd g.watched i = some s ∧ rd g.watch_what i = some w := by
  unfold Interest
  constructor
  · rintro ⟨i, hi, h⟩
    exact ⟨i, (mem_slots.1 hi).1, (mem_slots.1 hi).2, h⟩
  · rintro ⟨i, h0, h1, h⟩
    exact ⟨i, mem_slots.2 ⟨h0, h1⟩, h⟩

theorem distinct_iff {g : Globals} :
    Distinct g ↔ ∀ i j, 0 ≤ i → i < g.nsockets → 0 ≤ j → j < g.nsockets → i ≠ j →
      rd g.watched i ≠ rd g.watched j := by
  unfold Distinct
  constructor
  · intro h i j hi0 hi1 hj0 hj1 hij
    exact h i (mem_slots.2 ⟨hi0, hi1⟩) j (mem_slots.2 ⟨hj0, hj1⟩) hij
  · intro h i hi j hj hij
    exact h i j (mem_slots.1 hi).1 (mem_slots.1 hi).2 (mem_slots.1 hj).1 (mem_slots.1 hj).2 hij

/-! ## What one `socket_callback` call does -/

/-- The `CURL_POLL_REMOVE` branch on a state satisfying the invariant: either `s`
is found at its first index `k`, the last entry is moved into cell `k` and
`nsockets` drops by one, or `s` is absent and nothing changes. -/
theorem socket_callback_remove (R : Int) (g : Globals) (s clientp : Int) (hinv : Inv g) :
    (∃ k g1, 0 ≤ k ∧ k < g.nsockets ∧ rd g.watched k = some s ∧
        socket_callback R g s R clientp = some { globals := g1, assigns := [], ret := 0 } ∧
        g1.nsockets = g.nsockets - 1 ∧ g1.watched.length = 16 ∧ g1.watch_what.length = 16 ∧
        g1.timeout_ms_global = g.timeout_ms_global ∧
        ∀ i, 0 ≤ i → i < g.nsockets - 1 →
          rd g1.watched i = rd g.watched (if i = k then g.nsockets - 1 else i) ∧
          rd g1.watch_what i = rd g.watch_what (if i = k then g.nsockets - 1 else i)) ∨
    ((∀ j, 0 ≤ j → j < g.nsockets → rd g.watched j ≠ some s) ∧
        socket_callback R g s R clientp = some { globals := g, assigns := [], ret := 0 }) := by
  have hle : g.nsockets ≤ 16 := hinv.le_max
  have hnn := hinv.nonneg
  rcases removeLoop_spec s g hinv.len_watched hinv.len_what hle (g.nsockets.toNat + 1) 0
      (le_refl _) (by omega) (by push_cast; omega) (fun j h0 h1 => by omega) with
    ⟨k, lastSock, lastWhat, watched1, what1, hk0, hk1, hks, -, hls, hw1, hlh, hh1, hres⟩ |
    ⟨hnone, hres⟩
  · left
    refine ⟨k, { g with watched := watched1, watch_what := what1, nsockets := g.nsockets - 1 },
      hk0, hk1, hks, by simp [socket_callback, hres], rfl, ?_, ?_, rfl, ?_⟩
    · simpa [wr_length hw1] using hinv.len_watched
    · simpa [wr_length hh1] using hinv.len_what
    · intro i hi0 hi1
      by_cases hik : i = k
      · subst hik
        simp only [if_true]
        exact ⟨by rw [rd_wr_same hw1, hls], by rw [rd_wr_same hh1, hlh]⟩
      · simp only [if_neg hik]
        exact ⟨rd_wr_other hw1 hik, rd_wr_other hh1 hik⟩
  · right
    exact ⟨hnone, by simp [socket_callback, hres]⟩

/-- The add-or-update branch on a state satisfying the invariant: `s` is found
and its `watch_what` cell is overwritten, or `s` is absent and appended (with
one `curl_multi_assign`), or `s` is absent and the list is full. -/
theorem socket_callback_update (R : Int) (g : Globals) (s what clientp : Int) (hinv : Inv g)
    (hne : what ≠ R) :
    (∃ k what1, 0 ≤ k ∧ k < g.nsockets ∧ rd g.watched k = some s ∧
        wr g.watch_what k what = some what1 ∧
        socket_callback R g s what clientp =
          some { globals := { g with watch_what := what1 }, assigns := [], ret := 0 }) ∨
    ((∀ j, 0 ≤ j → j < g.nsockets → rd g.watched j ≠ some s) ∧ g.nsockets < MAX_SOCKETS ∧
      ∃ watched1 what1, wr g.watched g.nsockets s = some watched1 ∧
        wr g.watch_what g.nsockets what = some what1 ∧
        socket_callback R g s what clientp =
          some { globals := { g with watched := watched1, watch_what := what1,
                                     nsockets := g.nsockets + 1 }
                 assigns := [{ multi := clientp, sock := s, marker := 42 }]
                 ret := 0 }) ∨
    ((∀ j, 0 ≤ j → j < g.nsockets → rd g.watched j ≠ some s) ∧ g.nsockets = MAX_SOCKETS ∧
        socket_callback R g s what clientp = some { globals := g, assigns := [], ret := 0 }) := by
  have hle : g.nsockets ≤ 16 := hinv.le_max
  have hnn := hinv.nonneg
  rcases updateLoop_spec s what g hinv.len_watched hinv.len_what hle (g.nsockets.toNat + 1) 0
      (le_refl _) (by omega) (by push_cast; omega) (fun j h0 h1 => by omega) with
    ⟨k, what1, hk0, hk1, hks, -, hkw, hres⟩ | ⟨hnone, hres⟩
  · left
    exact ⟨k, what1, hk0, hk1, hks, hkw, by simp [socket_callback, hne, hres]⟩
  · right
    by_cases hfull : g.nsockets < MAX_SOCKETS
    · left
      have h16 : g.nsockets < 16 := hfull
      obtain ⟨watched1, hw1⟩ :=
        wr_some_of_lt (a := g.watched) s hnn (by rw [hinv.len_watched]; exact_mod_cast h16)
      obtain ⟨what1, hh1⟩ :=
        wr_some_of_lt (a := g.watch_what) what hnn (by rw [hinv.len_what]; exact_mod_cast h16)
      exact ⟨hnone, hfull, watched1, what1, hw1, hh1,
        by simp [socket_callback, hne, hres, hfull, hw1, hh1]⟩
    · right
      have hmax : (16 : Int) = MAX_SOCKETS := rfl
      exact ⟨hnone, by omega, by simp [socket_callback, hne, hres, hfull]⟩

/-! ## The invariant is kept by every call -/

theorem inv_init : Inv initGlobals :=
  { len_watched := by decide
    len_what := by decide
    nonneg := by decide
    le_max := by decide
    distinct := by decide }

theorem socket_callback_inv (R : Int) (g : Globals) (s what clientp : Int) (hinv : Inv g) :
    ∃ r, socket_callback R g s what clientp = some r ∧ Inv r.globals ∧ r.ret = 0 := by
  have hle : g.nsockets ≤ 16 := hinv.le_max
  have hnn := hinv.nonneg
  have hd := distinct_iff.1 hinv.distinct
  by_cases hR : what = R
  · subst hR
    rcases socket_callback_remove what g s clientp hinv with
      ⟨k, g1, hk0, hk1, hks, hres, hn1, hl1, hl2, -, hcells⟩ | ⟨-, hres⟩
    · refine ⟨_, hres, ?_, rfl⟩
      refine ⟨hl1, hl2, ?_, ?_, ?_⟩
      · show 0 ≤ g1.nsockets
        omega
      · show g1.nsockets ≤ 16
        omega
      · show Distinct g1
        rw [distinct_iff]
        intro i j hi0 hi1 hj0 hj1 hij
        rw [(hcells i hi0 (by omega)).1, (hcells j hj0 (by omega)).1]
        apply hd
        · split <;> omega
        · split <;> omega
        · split <;> omega
        · split <;> omega
        · split <;> split <;> omega
    · exact ⟨_, hres, hinv, rfl⟩
  · rcases socket_callback_update R g s what clientp hinv hR with
      ⟨k, what1, -, -, -, hkw, hres⟩ | ⟨hnone, hfull, watched1, what1, hw1, hh1, hres⟩ |
      ⟨-, -, hres⟩
    · refine ⟨_, hres, ?_, rfl⟩
      refine ⟨hinv.len_watched, ?_, hinv.nonneg, hinv.le_max, ?_⟩
      · show what1.length = 16
        rw [wr_length hkw]
        exact hinv.len_what
      · exact hinv.distinct
    · have h16 : g.nsockets < 16 := hfull
      refine ⟨_, hres, ?_, rfl⟩
      refine ⟨?_, ?_, ?_, ?_, ?_⟩
      · show watched1.length = 16
        rw [wr_length hw1]
        exact hinv.len_watched
      · show what1.length = 16
        rw [wr_length hh1]
        exact hinv.len_what
      · show 0 ≤ g.nsockets + 1
        omega
      · show g.nsockets + 1 ≤ 16
        omega
      · rw [distinct_iff]
        show ∀ i j, 0 ≤ i → i < g.nsockets + 1 → 0 ≤ j → j < g.nsockets + 1 → i ≠ j →
          rd watched1 i ≠ rd watched1 j
        intro i j hi0 hi1 hj0 hj1 hij
        by_cases hin : i = g.nsockets
        · subst hin
          rw [rd_wr_same hw1, rd_wr_other hw1 (Ne.symm hij)]
          exact Ne.symm (hnone j hj0 (by omega))
        · by_cases hjn : j = g.nsockets
          · subst hjn
            rw [rd_wr_same hw1, rd_wr_other hw1 hij]
            exact hnone i hi0 (by omega)
          · rw [rd_wr_other hw1 hin, rd_wr_other hw1 hjn]
            exact hd i j hi0 (by omega) hj0 (by omega) hij
    · exact ⟨_, hres, hinv, rfl⟩

theorem run_inv (R : Int) (calls : List Call) :
    ∀ g, Inv g → ∃ g1, run R calls g = some g1 ∧ Inv g1 := by
  induction calls with
  | nil =>
    intro g hinv
    exact ⟨g, rfl, hinv⟩
  | cons c cs ih =>
    intro g hinv
    obtain ⟨r, hr, hinv1, -⟩ := socket_callback_inv R g c.s c.what c.clientp hinv
    obtain ⟨g1, hg1, hinv2⟩ := ih r.globals hinv1
    exact ⟨g1, by simp [run, hr, hg1], hinv2⟩

theorem inv_of_run {R : Int} {calls : List Call} {g : Globals}
    (h : run R calls initGlobals = some g) : Inv g := by
  obtain ⟨g1, hg1, hinv⟩ := run_inv R calls initGlobals inv_init
  rw [h] at hg1
  cases hg1
  exact hinv

/-! ## The claims about `demo_poll_remove.c` -/

/-- C3: on every state reached from the initial one by `socket_callback` calls,
`socket_callback(s, CURL_POLL_REMOVE)` returns normally, leaves `s` absent from
`watched[0..nsockets)`, lowers `nsockets` by one when `s` was watched and leaves
it alone otherwise, and every other socket watched before is still watched with
the same interest value. -/
theorem stop_monitoring_after_remove (R : Int) (calls : List Call) (g : Globals)
    (s clientp : Int) (hreach : run R calls initGlobals = some g) :
    ∃ r, socket_callback R g s R clientp = some r ∧
      ¬ Watched r.globals s ∧
      r.globals.nsockets = (if Watched g s then g.nsockets - 1 else g.nsockets) ∧
      ∀ t w, t ≠ s → Interest g t w → Interest r.globals t w := by
  have hinv := inv_of_run hreach
  have hd := distinct_iff.1 hinv.distinct
  rcases socket_callback_remove R g s clientp hinv with
    ⟨k, g1, hk0, hk1, hks, hres, hn1, -, -, -, hcells⟩ | ⟨hnone, hres⟩
  · have hw : Watched g s := watched_iff.2 ⟨k, hk0, hk1, hks⟩
    refine ⟨_, hres, ?_, ?_, ?_⟩
    · show ¬ Watched g1 s
      rw [not_watched_iff]
      intro i hi0 hi1
      rw [(hcells i hi0 (by omega)).1, ← hks]
      apply hd
      · split <;> omega
      · split <;> omega
      · exact hk0
      · exact hk1
      · split <;> omega
    · show g1.nsockets = _
      rw [if_pos hw, hn1]
    · intro t w hts hint
      show Interest g1 t w
      obtain ⟨j, hj0, hj1, hjt, hjw⟩ := interest_iff.1 hint
      have hjk : j ≠ k := by
        intro h
        subst h
        rw [hks] at hjt
        exact hts (Option.some.inj hjt).symm
      rw [interest_iff]
      by_cases hlast : j = g.nsockets - 1
      · refine ⟨k, hk0, by omega, ?_, ?_⟩
        · rw [(hcells k hk0 (by omega)).1, if_pos rfl, ← hlast, hjt]
        · rw [(hcells k hk0 (by omega)).2, if_pos rfl, ← hlast, hjw]
      · refine ⟨j, hj0, by omega, ?_, ?_⟩
        · rw [(hcells j hj0 (by omega)).1, if_neg hjk, hjt]
        · rw [(hcells j hj0 (by omega)).2, if_neg hjk, hjw]
  · have hw : ¬ Watched g s := not_watched_iff.2 hnone
    refine ⟨_, hres, hw, ?_, ?_⟩
    · show g.nsockets = _
      rw [if_neg hw]
    · intro t w _ hint
      exact hint

/-- C3 at a concrete state: sockets 5 and 7 are watched and 5 is removed. -/
theorem stop_monitoring_after_remove_witness :
    run 4 twoCalls initGlobals = some twoState ∧
    ∃ r, socket_callback 4 twoState 5 4 0 = some r ∧
      ¬ Watched r.globals 5 ∧
      r.globals.nsockets = (if Watched twoState 5 then twoState.nsockets - 1
        else twoState.nsockets) ∧
      ∀ t w, t ≠ 5 → Interest twoState t w → Interest r.globals t w :=
  ⟨by decide, stop_monitoring_after_remove 4 twoCalls twoState 5 0 (by decide)⟩

/-- C4: on every reachable state and for every socket `s` already in
`watched[0..nsockets)`, `socket_callback(s, what)` with `what ≠ CURL_POLL_REMOVE`
returns normally, records `what` as the one interest value of `s`, leaves
`nsockets`, the `watched` array and every other socket's interest value
unchanged, and makes no `curl_multi_assign` call. -/
theorem update_keeps_assignment (R : Int) (calls : List Call) (g : Globals)
    (s what clientp : Int) (hreach : run R calls initGlobals = some g)
    (hw : Watched g s) (hne : what ≠ R) :
    ∃ r, socket_callback R g s what clientp = some r ∧
      Interest r.globals s what ∧ (∀ w, Interest r.globals s w → w = what) ∧
      r.globals.nsockets = g.nsockets ∧ r.globals.watched = g.watched ∧
      (∀ t w, t ≠ s → (Interest r.globals t w ↔ Interest g t w)) ∧
      r.assigns = [] := by
  have hinv := inv_of_run hreach
  have hd := distinct_iff.1 hinv.distinct
  rcases socket_callback_update R g s what clientp hinv hne with
    ⟨k, what1, hk0, hk1, hks, hkw, hres⟩ | ⟨hnone, -, -⟩ | ⟨hnone, -, -⟩
  · refine ⟨_, hres, ?_, ?_, rfl, rfl, ?_, rfl⟩
    · rw [interest_iff]
      exact ⟨k, hk0, hk1, hks, rd_wr_same hkw⟩
    · intro w hint
      obtain ⟨j, hj0, hj1, hjs, hjw⟩ := interest_iff.1 hint
      have hjs1 : rd g.watched j = some s := hjs
      have hjw1 : rd what1 j = some w := hjw
      have hjk : j = k := by
        by_contra hjk
        exact hd j k hj0 hj1 hk0 hk1 hjk (by rw [hjs1, hks])
      subst hjk
      rw [rd_wr_same hkw] at hjw1
      exact (Option.some.inj hjw1).symm
    · intro t w hts
      have key : ∀ j, rd g.watched j = some t → rd what1 j = rd g.watch_what j := by
        intro j hjt
        apply rd_wr_other hkw
        intro h
        subst h
        rw [hks] at hjt
        exact hts (Option.some.inj hjt).symm
      rw [interest_iff, interest_iff]
      constructor
      · rintro ⟨j, hj0, hj1, hjt, hjw⟩
        have hjt1 : rd g.watched j = some t := hjt
        have hjw1 : rd what1 j = some w := hjw
        exact ⟨j, hj0, hj1, hjt1, by rw [← key j hjt1]; exact hjw1⟩
      · rintro ⟨j, hj0, hj1, hjt, hjw⟩
        refine ⟨j, hj0, hj1, hjt, ?_⟩
        show rd what1 j = some w
        rw [key j hjt]
        exact hjw
  · exact absurd hw (not_watched_iff.2 hnone)
  · exact absurd hw (not_watched_iff.2 hnone)

/-- C4 at a concrete state: socket 5, watched for `CURL_POLL_OUT` (2), is
updated to `CURL_POLL_IN` (1). -/
theorem update_keeps_assignment_witness :
    run 4 twoCalls initGlobals = some twoState ∧ Watched twoState 5 ∧ (1 : Int) ≠ 4 ∧
    ∃ r, socket_callback 4 twoState 5 1 0 = some r ∧
      Interest r.globals 5 1 ∧ (∀ w, Interest r.globals 5 w → w = 1) ∧
      r.globals.nsockets = twoState.nsockets ∧ r.globals.watched = twoState.watched ∧
      (∀ t w, t ≠ 5 → (Interest r.globals t w ↔ Interest twoState t w)) ∧
      r.assigns = [] :=
  ⟨by decide, by decide, by decide,
    update_keeps_assignment 4 twoCalls twoState 5 1 0 (by decide) (by decide) (by decide)⟩

/-- C5: on every reachable state with `nsockets < MAX_SOCKETS`, for a socket `s`
not in `watched[0..nsockets)` and `what ≠ CURL_POLL_REMOVE`, `socket_callback(s, what)`
returns normally, stores `s` and `what` at index `nsockets`, raises `nsockets` by
exactly one, leaves every earlier entry unchanged, and calls `curl_multi_assign`
exactly once, for socket `s`, with a marker of value 42. -/
theorem first_notification_registers (R : Int) (calls : List Call) (g : Globals)
    (s what clientp : Int) (hreach : run R calls initGlobals = some g)
    (hroom : g.nsockets < MAX_SOCKETS) (hnew : ¬ Watched g s) (hne : what ≠ R) :
    ∃ r, socket_callback R g s what clientp = some r ∧
      rd r.globals.watched g.nsockets = some s ∧
      rd r.globals.watch_what g.nsockets = some what ∧
      r.globals.nsockets = g.nsockets + 1 ∧
      (∀ i, 0 ≤ i → i < g.nsockets →
        rd r.globals.watched i = rd g.watched i ∧
        rd r.globals.watch_what i = rd g.watch_what i) ∧
      r.assigns = [{ multi := clientp, sock := s, marker := 42 }] := by
  have hinv := inv_of_run hreach
  rcases socket_callback_update R g s what clientp hinv hne with
    ⟨k, -, hk0, hk1, hks, -, -⟩ | ⟨-, -, watched1, what1, hw1, hh1, hres⟩ | ⟨-, hfull, -⟩
  · exact absurd (watched_iff.2 ⟨k, hk0, hk1, hks⟩) hnew
  · refine ⟨_, hres, rd_wr_same hw1, rd_wr_same hh1, rfl, ?_, rfl⟩
    intro i _ hi1
    exact ⟨rd_wr_other hw1 (by omega), rd_wr_other hh1 (by omega)⟩
  · omega

/-- C5 at a concrete state: socket 9 is new to a list watching 5 and 7. -/
theorem first_notification_registers_witness :
    run 4 twoCalls initGlobals = some twoState ∧ twoState.nsockets < MAX_SOCKETS ∧
    ¬ Watched twoState 9 ∧ (2 : Int) ≠ 4 ∧
    ∃ r, socket_callback 4 twoState 9 2 77 = some r ∧
      rd r.globals.watched twoState.nsockets = some 9 ∧
      rd r.globals.watch_what twoState.nsockets = some 2 ∧
      r.globals.nsockets = twoState.nsockets + 1 ∧
      (∀ i, 0 ≤ i → i < twoState.nsockets →
        rd r.globals.watched i = rd twoState.watched i ∧
        rd r.globals.watch_what i = rd twoState.watch_what i) ∧
      r.assigns = [{ multi := 77, sock := 9, marker := 42 }] :=
  ⟨by decide, by decide, by decide, by decide,
    first_notification_registers 4 twoCalls twoState 9 2 77 (by decide) (by decide)
      (by decide) (by decide)⟩

/-- C6: `timer_callback` stores the requested value whatever the previous one
was and returns 0, so after any sequence of requests the stored deadline is the
last one requested. -/
theorem timer_overwrites (g : Globals) (t : Int) (earlier : List Int) :
    (timer_callback g t).1.timeout_ms_global = t ∧
    (timer_callback g t).2 = 0 ∧
    (∀ p : Int, (timer_callback { g with timeout_ms_global := p } t).1.timeout_ms_global = t) ∧
    (runTimer g (earlier ++ [t])).timeout_ms_global = t := by
  refine ⟨rfl, rfl, fun _ => rfl, ?_⟩
  simp [runTimer, List.foldl_append, timer_callback]

/-- C7 (as amended): when `timeout_ms_global < 0` the loop in `main` hands `select` a
pointer to the finite limit of one second, `tv_sec = 1` and `tv_usec = 0`. -/
theorem negative_deadline_waits_one_second (g : Globals) (h : g.timeout_ms_global < 0) :
    select_timeout_arg g = some { tv_sec := 1, tv_usec := 0 } := by
  have hn : ¬ g.timeout_ms_global ≥ 0 := by omega
  simp [select_timeout_arg, select_timeval, hn]

/-- C7 (as amended) at the initial state, where `timeout_ms_global = -1`. -/
theorem negative_deadline_waits_one_second_witness :
    initGlobals.timeout_ms_global < 0 ∧
    select_timeout_arg initGlobals = some { tv_sec := 1, tv_usec := 0 } :=
  ⟨by decide, negative_deadline_waits_one_second initGlobals (by decide)⟩

/-- C7 as stated fails: at the initial state the deadline is -1, yet `select`
is not called without a time limit. -/
theorem negative_deadline_not_indefinite :
    ¬ (initGlobals.timeout_ms_global < 0 → select_timeout_arg initGlobals = none) := by
  decide

/-- C8: after any finite sequence of `socket_callback` calls from the initial
state every call has returned normally (each array access was inside its
array of 16 cells), `0 ≤ nsockets ≤ MAX_SOCKETS`, the entries
`watched[0..nsockets)` are pairwise distinct, and one more call with any socket
and action stays inside the arrays as well. -/
theorem watch_list_invariant (R : Int) (calls : List Call) :
    ∃ g, run R calls initGlobals = some g ∧
      0 ≤ g.nsockets ∧ g.nsockets ≤ MAX_SOCKETS ∧ Distinct g ∧
      g.watched.length = 16 ∧ g.watch_what.length = 16 ∧
      ∀ s what clientp, ∃ r, socket_callback R g s what clientp = some r ∧
        0 ≤ r.globals.nsockets := by
  obtain ⟨g, hg, hinv⟩ := run_inv R calls initGlobals inv_init
  refine ⟨g, hg, hinv.nonneg, hinv.le_max, hinv.distinct, hinv.len_watched, hinv.len_what, ?_⟩
  intro s what clientp
  obtain ⟨r, hr, hinv1, -⟩ := socket_callback_inv R g s what clientp hinv
  exact ⟨r, hr, hinv1.nonneg⟩

/-- C9: on every reachable state with `nsockets = MAX_SOCKETS`, for a socket `s`
not in `watched[0..16)` and `what ≠ CURL_POLL_REMOVE`, `socket_callback(s, what)`
leaves all globals unchanged, makes no `curl_multi_assign` call and returns 0;
`s` is still not watched afterwards. -/
theorem full_list_drops_new_socket (R : Int) (calls : List Call) (g : Globals)
    (s what clientp : Int) (hreach : run R calls initGlobals = some g)
    (hfull : g.nsockets = MAX_SOCKETS) (hnew : ¬ Watched g s) (hne : what ≠ R) :
    socket_callback R g s what clientp = some { globals := g, assigns := [], ret := 0 } ∧
      ∀ r, socket_callback R g s what clientp = some r → ¬ Watched r.globals s := by
  have hinv := inv_of_run hreach
  have hres : socket_callback R g s what clientp =
      some { globals := g, assigns := [], ret := 0 } := by
    rcases socket_callback_update R g s what clientp hinv hne with
      ⟨k, -, hk0, hk1, hks, -, -⟩ | ⟨-, hlt, -⟩ | ⟨-, -, hres⟩
    · exact absurd (watched_iff.2 ⟨k, hk0, hk1, hks⟩) hnew
    · omega
    · exact hres
  refine ⟨hres, ?_⟩
  intro r hr
  rw [hres] at hr
  cases hr
  exact hnew

/-- C9 at a concrete state: sockets 1 to 16 are watched and socket 99 arrives. -/
theorem full_list_drops_new_socket_witness :
    run 4 fullCalls initGlobals = some fullState ∧ fullState.nsockets = MAX_SOCKETS ∧
    ¬ Watched fullState 99 ∧ (1 : Int) ≠ 4 ∧
    socket_callback 4 fullState 99 1 0 =
      some { globals := fullState, assigns := [], ret := 0 } ∧
    ∀ r, socket_callback 4 fullState 99 1 0 = some r → ¬ Watched r.globals 99 :=
  ⟨by decide, by decide, by decide, by decide,
    full_list_drops_new_socket 4 fullCalls fullState 99 1 0 (by decide) (by decide)
      (by decide) (by decide)⟩

/-- C10: for `timeout_ms_global = t ≥ 0` the computed `timeval` satisfies
`tv_sec * 1000000 + tv_usec = 1000 * t` with `0 ≤ tv_usec < 1000000`, so `t = 0`
gives the zero timeout; for `t < 0` it is `tv_sec = 1`, `tv_usec = 0`. -/
theorem timeval_conversion (t : Int) :
    (0 ≤ t →
      (select_timeval t).tv_sec * 1000000 + (select_timeval t).tv_usec = 1000 * t ∧
      0 ≤ (select_timeval t).tv_usec ∧ (select_timeval t).tv_usec < 1000000) ∧
    (t < 0 → select_timeval t = { tv_sec := 1, tv_usec := 0 }) ∧
    select_timeval 0 = { tv_sec := 0, tv_usec := 0 } := by
  refine ⟨?_, ?_, by decide⟩
  · intro h0
    have hge : t ≥ 0 := h0
    have hd : Int.tdiv t 1000 = t / 1000 := Int.tdiv_eq_ediv h0 (by decide)
    have hm : Int.tmod t 1000 = t % 1000 := Int.tmod_eq_emod h0 (by decide)
    simp only [select_timeval, if_pos hge, hd, hm]
    omega
  · intro hneg
    have hn : ¬ t ≥ 0 := by omega
    simp [select_timeval, hn]

/-- C10 at `t = 1500` (one and a half seconds) and at `t = -1`. -/
theorem timeval_conversion_witness :
    select_timeval 1500 = { tv_sec := 1, tv_usec := 500000 } ∧
    ((0 : Int) ≤ 1500 →
      (select_timeval 1500).tv_sec * 1000000 + (select_timeval 1500).tv_usec = 1000 * 1500 ∧
      0 ≤ (select_timeval 1500).tv_usec ∧ (select_timeval 1500).tv_usec < 1000000) :=
  ⟨by decide, (timeval_conversion 1500).1⟩

end DemoPollRemove

/-! ## The claim about the connection pool -/

namespace ConnectionPool

theorem runTransfer_idle (key : IdentityKey) (cb1 cb : Option Nat) (sock connect : Int)
    (n : Nat) (fired : List (Option Nat × Int)) :
    runTransfer
        { conns := [{ key := key, sock := sock, closeCb := cb1, reuse := n,
                      state := ConnState.IDLE }], fired := fired }
        { key := key, closeCb := cb } connect true =
      { conns := [{ key := key, sock := sock, closeCb := cb1, reuse := n + 1,
                    state := ConnState.IDLE }], fired := fired } := by
  simp [runTransfer, acquire, reuseIdle, release]

theorem foldl_runTransfer_idle (key : IdentityKey) (cb1 : Option Nat) (sock : Int)
    (later : List (Option Nat × Int)) :
    ∀ n : Nat,
      later.foldl (fun p t => runTransfer p { key := key, closeCb := t.1 } t.2 true)
          { conns := [{ key := key, sock := sock, closeCb := cb1, reuse := n,
                        state := ConnState.IDLE }], fired := [] } =
        { conns := [{ key := key, sock := sock, closeCb := cb1, reuse := n + later.length,
                      state := ConnState.IDLE }], fired := [] } := by
  induction later with
  | nil =>
    intro n
    rfl
  | cons t ts ih =>
    intro n
    rw [List.foldl_cons, runTransfer_idle, ih (n + 1), List.length_cons]
    have hlen : n + 1 + ts.length = n + (ts.length + 1) := by omega
    rw [hlen]

theorem session_pool (key : IdentityKey) (cb1 : Option Nat) (sock : Int)
    (later : List (Option Nat × Int)) :
    session key cb1 sock later =
      { conns := [{ key := key, sock := sock, closeCb := cb1, reuse := 0 + later.length,
                    state := ConnState.IDLE }], fired := [] } := by
  unfold session
  have hfirst : runTransfer emptyPool { key := key, closeCb := cb1 } sock true =
      { conns := [{ key := key, sock := sock, closeCb := cb1, reuse := 0,
                    state := ConnState.IDLE }], fired := [] } := by
    simp [runTransfer, acquire, reuseIdle, release, emptyPool]
  rw [hfirst, foldl_runTransfer_idle]

/-- C1: when a first transfer with callback `cb1` creates the connection (socket
`sock`) and any number of later transfers with the same key and any callback
values reuse it, closing the connection (by pool teardown, or by a last
transfer released as not reusable) invokes exactly one close callback, `cb1`,
with `sock`; a second teardown invokes nothing more, and no callback different
from `cb1` is ever invoked. -/
theorem close_callback_from_creating_transfer (key : IdentityKey) (cb1 : Option Nat)
    (sock : Int) (later : List (Option Nat × Int)) (cbLast : Option Nat) (connLast : Int) :
    (teardown (session key cb1 sock later)).fired = [(cb1, sock)] ∧
    (teardown (teardown (session key cb1 sock later))).fired = [(cb1, sock)] ∧
    (runTransfer (session key cb1 sock later) { key := key, closeCb := cbLast }
        connLast false).fired = [(cb1, sock)] ∧
    (teardown (runTransfer (session key cb1 sock later) { key := key, closeCb := cbLast }
        connLast false)).fired = [(cb1, sock)] ∧
    (∀ cb2 s, cb2 ≠ cb1 → (cb2, s) ∉ (teardown (session key cb1 sock later)).fired) := by
  rw [session_pool]
  simp only [teardown, closeConn, runTransfer, acquire, reuseIdle, release]
  simp
  intro _ _ h1 h2
  exact absurd h2 h1

/-- C1 on the demo's run: `easy1` with `close_cb_first` (1) creates the connection
on socket 5, `easy2` with `close_cb_second` (2) reuses it, and the cleanup
invokes `close_cb_first` once with socket 5. -/
theorem close_callback_from_creating_transfer_witness :
    (teardown (session demoKey (some 1) 5 [(some 2, 6)])).fired = [(some 1, 5)] ∧
    ∀ s, (some 2, s) ∉ (teardown (session demoKey (some 1) 5 [(some 2, 6)])).fired :=
  ⟨(close_callback_from_creating_transfer demoKey (some 1) 5 [(some 2, 6)] none 0).1,
    fun s => (close_callback_from_creating_transfer demoKey (some 1) 5 [(some 2, 6)]
      none 0).2.2.2.2 (some 2) s (by decide)⟩

end ConnectionPool

/-! ## The claim about the socket registrar -/

namespace SocketRegistrar

theorem forgotten_step (r : Registrar) (fd : Int) (op : Op) (h : Forgotten r fd)
    (hop : op.assignsTo fd = false) : Forgotten (step r op) fd := by
  unfold Forgotten at *
  cases op with
  | notify fd1 action mask =>
    unfold step notify
    by_cases hfd : fd = fd1
    · subst hfd
      cases action <;> cases hr : r.regs fd <;> simp_all [setReg]
    · cases action <;> cases hr : r.regs fd1 <;> simp_all [setReg]
  | assign fd1 d =>
    have hne : ¬ fd = fd1 := by
      intro heq
      simp [Op.assignsTo, heq] at hop
    unfold step assign
    cases hr : r.regs fd1 <;> simp_all [setReg]

theorem forgotten_exec (fd : Int) (ops : List Op) :
    ∀ r, Forgotten r fd → (∀ op ∈ ops, op.assignsTo fd = false) → Forgotten (exec r ops) fd := by
  induction ops with
  | nil =>
    intro r h _
    exact h
  | cons op ops ih =>
    intro r h hops
    have h1 := forgotten_step r fd op h (hops op (List.mem_cons_self _ _))
    exact ih (step r op) h1 (fun o ho => hops o (List.mem_cons_of_mem _ ho))

theorem forgotten_after_remove {r r1 : Registrar} {fd : Int} {mask : Mask} {n : Notification}
    (h : notify r fd Action.REMOVE mask = some (r1, n)) :
    Forgotten r1 fd ∧ lookup r fd = Except.ok n.data := by
  unfold notify at h
  cases hr : r.regs fd with
  | none => simp [hr] at h
  | some e =>
    simp [hr] at h
    obtain ⟨h1, h2⟩ := h
    subst h1
    subst h2
    simp [Forgotten, setReg, lookup, hr]

/-- C2: once a REMOVE notification has fired for `fd` (its payload reporting the
last assigned data), then after any operations that contain no `assign` to
`fd` no `lookup` of `fd` returns data, an ADD notification for `fd` reports no
data and the `lookup` after it returns none; the ADD right after the REMOVE is
possible, and a fresh `assign` after it is what makes `lookup` return data again. -/
theorem data_forgotten_after_remove (r r1 : Registrar) (fd : Int) (mask : Mask)
    (n : Notification) (ops : List Op) (mask2 : Mask)
    (hremove : notify r fd Action.REMOVE mask = some (r1, n))
    (hops : ∀ op ∈ ops, op.assignsTo fd = false) :
    lookup r fd = Except.ok n.data ∧
    (∀ d, lookup (exec r1 ops) fd ≠ Except.ok (some d)) ∧
    (∀ r2 n2, notify (exec r1 ops) fd Action.ADD mask2 = some (r2, n2) →
      n2.data = none ∧ lookup r2 fd = Except.ok none) ∧
    (∃ r2 n2, notify r1 fd Action.ADD mask2 = some (r2, n2)) ∧
    (∀ r2 n2 d, notify r1 fd Action.ADD mask2 = some (r2, n2) →
      ∃ r3, assign r2 fd d = Except.ok r3 ∧ lookup r3 fd = Except.ok (some d)) := by
  obtain ⟨hforg, hlast⟩ := forgotten_after_remove hremove
  have hf := forgotten_exec fd ops r1 hforg hops
  refine ⟨hlast, ?_, ?_, ?_, ?_⟩
  · intro d hd
    unfold Forgotten at hf
    unfold lookup at hd
    cases hr : (exec r1 ops).regs fd <;> simp_all
  · intro r2 n2 hadd
    unfold notify at hadd
    cases hr : (exec r1 ops).regs fd with
    | none =>
      simp [hr] at hadd
      obtain ⟨h1, h2⟩ := hadd
      subst h1
      subst h2
      simp [lookup, setReg]
    | some e => simp [hr] at hadd
  · have hun : r1.regs fd = none := by
      unfold notify at hremove
      cases hr : r.regs fd with
      | none => simp [hr] at hremove
      | some e =>
        simp [hr] at hremove
        rw [← hremove.1]
        simp [setReg]
    simp [notify, hun]
  · intro r2 n2 d hadd
    unfold notify at hadd
    cases hr : r1.regs fd with
    | none =>
      simp [hr] at hadd
      obtain ⟨h1, h2⟩ := hadd
      subst h1
      simp [assign, lookup, setReg]
    | some e => simp [hr] at hadd

/-- C2 on scenario 2: fd 7 carries 42 when REMOVE fires, the payload reports 42,
and the ADD that follows reports nothing. -/
theorem data_forgotten_after_remove_witness :
    lookup scenario2 7 = Except.ok (some 42) ∧
    (∀ d, lookup (exec (setReg scenario2 7 none) []) 7 ≠ Except.ok (some d)) ∧
    (∀ r2 n2, notify (exec (setReg scenario2 7 none) []) 7 Action.ADD Mask.OUT = some (r2, n2) →
      n2.data = none ∧ lookup r2 7 = Except.ok none) ∧
    (∃ r2 n2, notify (setReg scenario2 7 none) 7 Action.ADD Mask.OUT = some (r2, n2)) ∧
    (∀ r2 n2 d, notify (setReg scenario2 7 none) 7 Action.ADD Mask.OUT = some (r2, n2) →
      ∃ r3, assign r2 7 d = Except.ok r3 ∧ lookup r3 7 = Except.ok (some d)) :=
  data_forgotten_after_remove scenario2 (setReg scenario2 7 none) 7 Mask.IN
    { fd := 7, action := Action.REMOVE, mask := Mask.IN, data := some 42 } [] Mask.OUT
    rfl (by decide)

end SocketRegistrar
